import Mathlib

/-!
Verification of the core logic of `binmerge-gui.py` (cuesheet parser,
sector/timestamp arithmetic, cuesheet generators, binary merge/split copy
engines) via a shallow embedding in Lean.

Modelling conventions:
* Python unbounded integers are `Nat` where the source value is provably
  non-negative and `Int` where subtraction may go negative
  (`Track.sectors`).
* File bytes are `List Nat`.
* The filesystem is an explicit record of predicates (`FS`), and file
  contents are explicit list arguments.
* Python exceptions are `Except`/`Option` results; distinct constructors
  separate the typed `ErrorException` from untyped errors (`TypeError`,
  `AttributeError`, `IndexError`).
-/

namespace Binmerge

/-- Numeric value of a decimal digit character (Python `int` on digits). -/
def charVal (c : Char) : Nat := c.toNat - 48

/-- Value of a decimal digit string, as Python `int()` computes it on a
run of digit characters. -/
def charsToNat (cs : List Char) : Nat :=
  cs.foldl (fun a c => a * 10 + charVal c) 0

/-- Decimal digit characters of `n`, most significant first: the digits
Python `'%d' % n` prints for a non-negative integer. -/
def natDigits (n : Nat) : List Char :=
  if h : n < 10 then [Char.ofNat (48 + n)]
  else natDigits (n / 10) ++ [Char.ofNat (48 + n % 10)]
  decreasing_by exact Nat.div_lt_self (by omega) (by omega)

/-- Python `'%02d' % n` for `n ≥ 0`: decimal digits zero-padded on the
left to width 2. -/
def pad2 (n : Nat) : List Char :=
  List.replicate (2 - (natDigits n).length) '0' ++ natDigits n

/-- `'%02d' % n` as a string. -/
def pad2Str (n : Nat) : String := String.mk (pad2 n)

/-- `sectors_to_cuestamp` (source lines 158-164).  Python computes
`minutes = sectors / 4500`, `fields = sectors % 4500`,
`seconds = fields / 75`, `fields = sectors % 75` and formats with
`'%02d:%02d:%02d'`.  `%d` truncates the true-division floats, so on
non-negative integers each field is the floor quotient, i.e. `Nat`
division. -/
def sectors_to_cuestamp (sectors : Nat) : String :=
  String.mk (pad2 (sectors / 4500) ++ ':' :: pad2 (sectors % 4500 / 75) ++ ':' :: pad2 (sectors % 75))

/-- `(cs.takeWhile isDigit, cs.dropWhile isDigit)`: the deterministic
behaviour of one greedy `(\d+)` regex group (a shorter match would leave
a digit where `:` is required, so backtracking never helps). -/
def spanDigits (cs : List Char) : List Char × List Char :=
  (cs.takeWhile Char.isDigit, cs.dropWhile Char.isDigit)

/-- `cuestamp_to_sectors` (source lines 167-173).  Python runs
`re.match("(\d+):(\d+):(\d+)", stamp)` — anchored at the start only, so
trailing characters after the third digit group are accepted — and
returns `fields + seconds*75 + minutes*60*75`.  When the regex does not
match, `m.group(1)` raises an untyped `AttributeError`, modelled as
`none`. -/
def cuestamp_to_sectors (stamp : String) : Option Nat :=
  let s1 := spanDigits stamp.data
  if s1.1.isEmpty then none else
  match s1.2 with
  | ':' :: c2 =>
    let s2 := spanDigits c2
    if s2.1.isEmpty then none else
    match s2.2 with
    | ':' :: c3 =>
      let s3 := spanDigits c3
      if s3.1.isEmpty then none else
      some (charsToNat s3.1 + charsToNat s2.1 * 75 + charsToNat s1.1 * 60 * 75)
    | _ => none
  | _ => none

/-! ### Disc image model (source classes `Track` and `File`) -/

/-- One entry of `Track.indexes` (source line 131-132): the dict
`{'id': ..., 'stamp': ..., 'file_offset': ...}`.  The `stamp` string is
never read downstream (only the derived `file_offset` is), so only the
offset is kept. -/
structure IndexM where
  id : Nat
  file_offset : Nat
deriving DecidableEq

/-- Source class `Track` (lines 66-95).  `sectors` is `Int`-valued
because Python computes it by unbounded-integer subtraction. -/
structure TrackM where
  num : Nat
  track_type : String
  indexes : List IndexM
  sectors : Option Int
deriving DecidableEq

/-- Source class `File` (lines 98-102): `size` is read from the
filesystem at construction time. -/
structure FileM where
  filename : String
  size : Nat
  tracks : List TrackM
deriving DecidableEq

/-- The filesystem facts `read_cue_file` consults: `os.path.isfile`,
`os.access(..., os.R_OK)` and `os.path.getsize`. -/
structure FS where
  isfile : String → Bool
  readable : String → Bool
  size : String → Nat

/-- A cuesheet line, pre-classified by the three `re.search` patterns of
`read_cue_file` (lines 113, 123, 129).  `file` carries the referenced
binary path already resolved against the cuesheet's directory.  `index`
carries the three digit groups of the matched `(\d+:\d+:\d+)` stamp, on
which `cuestamp_to_sectors` always succeeds with
`f + s*75 + m*60*75` (theorem `cuestamp_groups`).  Lines matching no
pattern are `other`. -/
inductive CueLine
  | file (path : String)
  | track (num : Nat) (track_type : String)
  | index (id : Nat) (m s f : Nat)
  | other
deriving DecidableEq

/-- Failure modes of the parse.  `errorException` is the typed
`ErrorException` raised for a missing binary (line 117); the remaining
constructors are Python's untyped errors: `noneFormatError` is the
`TypeError` from `"%d" % None` in `log_debug` (line 95),
`noneDivError` the `TypeError` from `size // None` (line 137),
`indexError` the `IndexError` from `t.indexes[0]` on an index-less track
(line 139). -/
inductive ParseErr
  | errorException (path : String)
  | noneFormatError
  | noneDivError
  | indexError
deriving DecidableEq

/-- The blocksize table of `Track.__init__` (lines 87-94). -/
def blocksizeFor (track_type : String) : Option Nat :=
  if track_type = "AUDIO" ∨ track_type = "MODE1/2352" ∨ track_type = "MODE2/2352"
      ∨ track_type = "CDI/2352" then some 2352
  else if track_type = "CDG" then some 2448
  else if track_type = "MODE1/2048" then some 2048
  else if track_type = "MODE2/2336" ∨ track_type = "CDI/2336" then some 2336
  else none

/-- The `if not Track.globalBlocksize:` block of `Track.__init__`
(lines 86-95).  Returns the new value of `Track.globalBlocksize` and
whether the unconditional `log_debug("Locked blocksize to %d" % ...)`
raises (it does exactly when the type tag is unknown, leaving the
blocksize unset).  Python's falsiness test is `None` or `0`. -/
def lockBlocksize (gbs : Option Nat) (track_type : String) : Option Nat × Bool :=
  if gbs.getD 0 = 0 then
    match blocksizeFor track_type with
    | some b => (some b, false)
    | none => (gbs, true)
  else (gbs, false)

/-- Replace the `n`-th element of a list by `f` of it (in-place object
mutation in Python). -/
def listModify (f : α → α) : Nat → List α → List α
  | _, [] => []
  | 0, a :: as => f a :: as
  | n + 1, a :: as => a :: listModify f n as

/-- `this_file.tracks.append(...)`: `this_file` is always the most
recently appended `File`. -/
def appendTrackToLast (files : List FileM) (t : TrackM) : List FileM :=
  listModify (fun fl => { fl with tracks := fl.tracks ++ [t] }) (files.length - 1) files

/-- Number of tracks of the most recently appended `File`. -/
def lastTracksLen (files : List FileM) : Nat :=
  match files.getLast? with
  | some fl => fl.tracks.length
  | none => 0

/-- `this_track.indexes.append(...)`: `this_track` may live in an
earlier file than the current one, so it is addressed by
(file index, track index). -/
def appendIndexAt (files : List FileM) (loc : Nat × Nat) (idx : IndexM) : List FileM :=
  listModify (fun fl =>
      { fl with tracks :=
          listModify (fun t => { t with indexes := t.indexes ++ [idx] }) loc.2 fl.tracks })
    loc.1 files

/-- Parser state: the accumulated `files` list, the location of
`this_track` (if any), and `Track.globalBlocksize`.  `this_file` is not
`None` exactly when `files` is non-empty. -/
structure PState where
  files : List FileM
  curTrack : Option (Nat × Nat)
  gbs : Option Nat
deriving DecidableEq

/-- The line loop of `read_cue_file` (lines 112-133). -/
def parseLines (fs : FS) : PState → List CueLine → Except ParseErr PState
  | st, [] => .ok st
  | st, CueLine.file p :: rest =>
    if !(fs.isfile p || fs.readable p) then .error (.errorException p)
    else parseLines fs { st with files := st.files ++ [⟨p, fs.size p, []⟩] } rest
  | st, CueLine.track num ttype :: rest =>
    if st.files.isEmpty then parseLines fs st rest
    else
      match lockBlocksize st.gbs ttype with
      | (_, true) => .error .noneFormatError
      | (g2, false) =>
        parseLines fs
          { files := appendTrackToLast st.files ⟨num, ttype, [], none⟩,
            curTrack := some (st.files.length - 1, lastTracksLen st.files),
            gbs := g2 } rest
  | st, CueLine.index i m s f :: rest =>
    match st.curTrack with
    | none => parseLines fs st rest
    | some loc =>
      parseLines fs
        { st with files := appendIndexAt st.files loc ⟨i, f + s * 75 + m * 60 * 75⟩ } rest
  | st, CueLine.other :: rest => parseLines fs st rest

/-- The reverse walk of lines 138-140, over the *reversed* track list:
`t.sectors = next_item_offset - t.indexes[0]["file_offset"]`, then
`next_item_offset = t.indexes[0]["file_offset"]`.  `none` models the
`IndexError` on a track without indexes. -/
def backfillLoop : Nat → List TrackM → Option (List TrackM)
  | _, [] => some []
  | next, t :: ts =>
    match t.indexes.head? with
    | none => none
    | some i0 =>
      match backfillLoop i0.file_offset ts with
      | none => none
      | some ts2 =>
        some ({ t with sectors := some ((next : Int) - (i0.file_offset : Int)) } :: ts2)

/-- The whole single-file back-fill post-pass (lines 135-140), in
original track order, starting from `next_item_offset = size // bs`. -/
def backfillTracks (next : Nat) (tracks : List TrackM) : Option (List TrackM) :=
  (backfillLoop next tracks.reverse).map List.reverse

/-- `read_cue_file` (lines 105-155) over pre-classified lines.  Returns
the files list together with the final `Track.globalBlocksize`
(a process-wide class attribute, so the initial value `gbs0` is a
parameter: a fresh process starts with `none`). -/
def read_cue_file (fs : FS) (gbs0 : Option Nat) (lines : List CueLine) :
    Except ParseErr (List FileM × Option Nat) :=
  match parseLines fs ⟨[], none, gbs0⟩ lines with
  | .error e => .error e
  | .ok st =>
    match st.files with
    | [f] =>
      match st.gbs with
      | none => .error .noneDivError
      | some bs =>
        match backfillTracks (f.size / bs) f.tracks with
        | none => .error .indexError
        | some ts => .ok ([{ f with tracks := ts }], st.gbs)
    | other => .ok (other, st.gbs)

/-- `track_filename` (lines 178-188): redump naming, 2-digit padding
only when there are more than 9 tracks. -/
def track_filename (base : String) (track_num track_count : Nat) : String :=
  if track_count > 9 then base ++ " (Track " ++ pad2Str track_num ++ ").bin"
  else base ++ " (Track " ++ String.mk (natDigits track_num) ++ ").bin"

/-! ### Cuesheet generators -/

/-- Concatenation of a list of strings (`+=` accumulation in the
source). -/
def strConcat : List String → String
  | [] => ""
  | s :: ss => s ++ strConcat ss

/-- The `TRACK`/`INDEX` lines one track contributes to the merged
cuesheet (lines 198-200): each index is re-stamped at
`sector_pos + file_offset`. -/
def trackIndexLines (sector_pos : Nat) (t : TrackM) : String :=
  "  TRACK " ++ pad2Str t.num ++ " " ++ t.track_type ++ "\n" ++
    strConcat (t.indexes.map (fun i =>
      "    INDEX " ++ pad2Str i.id ++ " " ++ sectors_to_cuestamp (sector_pos + i.file_offset) ++ "\n"))

/-- The file loop of `gen_merged_cuesheet` (lines 195-201).
`sector_pos += f.size / Track.globalBlocksize` raises a `TypeError`
(modelled `none`) when the blocksize is unset; Python's `/` is true
division, modelled as exact `Nat` division, which coincides whenever the
blocksize divides every file size (the hypothesis of the claims that use
this). -/
def genMergedLoop (gbs : Option Nat) (sector_pos : Nat) : List FileM → Option String
  | [] => some ""
  | f :: fs =>
    let body := strConcat (f.tracks.map (trackIndexLines sector_pos))
    match gbs with
    | none => none
    | some bs => (genMergedLoop gbs (sector_pos + f.size / bs) fs).map (fun r => body ++ r)

/-- `gen_merged_cuesheet` (lines 192-202). -/
def gen_merged_cuesheet (basename : String) (files : List FileM) (gbs : Option Nat) :
    Option String :=
  (genMergedLoop gbs 0 files).map
    (fun body => "FILE \"" ++ basename ++ ".bin\" BINARY\n" ++ body)

/-- Running-offset list: `offsetsFrom acc [n1, n2, ...]` is
`[acc, acc + n1, acc + n1 + n2, ...]` (one entry per input element).
Used to state the spec's `runningSectorOffset` rule. -/
def offsetsFrom (acc : Nat) : List Nat → List Nat
  | [] => []
  | n :: ns => acc :: offsetsFrom (acc + n) ns

/-- Modelled from the spec (§4.3): the merged cuesheet body as the spec
words it — for the `j`-th SourceFile every index timestamp is offset by
`runningSectorOffset`, the sum of `size/Blocksize` over the files before
it. -/
def mergedBodySpec (bs : Nat) (files : List FileM) : String :=
  strConcat
    (List.zipWith (fun f base => strConcat (f.tracks.map (trackIndexLines base)))
      files (offsetsFrom 0 (files.map (fun f => f.size / bs))))

/-! ### Split engine -/

/-- Python `file.read(n)` at position `pos`: a negative argument reads
to end of file, otherwise up to `n` bytes. -/
def pyRead (src : List Nat) (pos : Nat) (n : Int) : List Nat :=
  if n < 0 then src.drop pos else (src.drop pos).take n.toNat

/-- Failure modes of `split_files`: the typed `ErrorException` for an
existing target (line 243), the untyped `TypeError` from
`t.sectors * Track.globalBlocksize` when either is `None` (line 248),
and `nonterm` as the fuel-exhaustion marker for the copy loop. -/
inductive SplitErr
  | targetExists (path : String)
  | typeError
  | nonterm
deriving DecidableEq

/-- The `while True` copy loop of `split_files` (lines 251-258), with
explicit fuel.  Each iteration first shortens `chunksize` if it would
overshoot `tracksize`, reads, writes, advances `written` by the
*requested* amount, and stops when `written == tracksize`. -/
def copyLoop (src : List Nat) :
    Nat → Nat → Int → Int → Int → List Nat → Option (List Nat × Nat)
  | 0, _, _, _, _, _ => none
  | fuel + 1, pos, chunksize, written, tracksize, out =>
    let c := if chunksize + written > tracksize then tracksize - written else chunksize
    let chunk := pyRead src pos c
    let out2 := out ++ chunk
    let written2 := written + c
    let pos2 := pos + chunk.length
    if written2 = tracksize then some (out2, pos2)
    else copyLoop src fuel pos2 c written2 tracksize out2

/-- The preflight loop of `split_files` (lines 240-243): the first track
whose computed target filename already exists. -/
def findExistingTarget (fsEx : String → Bool) (base : String) (track_count : Nat) :
    List TrackM → Option String
  | [] => none
  | t :: ts =>
    let nm := track_filename base t.num track_count
    if fsEx nm then some nm else findExistingTarget fsEx base track_count ts

/-- The writing loop of `split_files` (lines 245-258): tracks in order,
each copying `t.sectors * blocksize` bytes from the shared read position
into its own output file.  The fuel `tracksize.toNat + 1` is sufficient
for every terminating run of the Python loop. -/
def writeTracks (base : String) (track_count : Nat) (gbs : Option Nat) (src : List Nat) :
    Nat → List TrackM → Except SplitErr (List (String × List Nat))
  | _, [] => .ok []
  | pos, t :: ts =>
    match gbs, t.sectors with
    | some bs, some s =>
      let tracksize : Int := s * (bs : Int)
      match copyLoop src (tracksize.toNat + 1) pos 1048576 0 tracksize [] with
      | none => .error .nonterm
      | some (out, pos2) =>
        match writeTracks base track_count gbs src pos2 ts with
        | .error e => .error e
        | .ok rest => .ok ((track_filename base t.num track_count, out) :: rest)
    | _, _ => .error .typeError

/-- `split_files` (lines 237-259): preflight existence check over *all*
tracks, then the per-track copy.  The result associates each computed
output filename with the bytes written to it; an error means no output
file was created. -/
def split_files (fsEx : String → Bool) (new_basename : String) (merged_file : FileM)
    (src : List Nat) (gbs : Option Nat) : Except SplitErr (List (String × List Nat)) :=
  match findExistingTarget fsEx new_basename merged_file.tracks.length merged_file.tracks with
  | some nm => .error (.targetExists nm)
  | none => writeTracks new_basename merged_file.tracks.length gbs src 0 merged_file.tracks

/-- The split outputs as the claim describes them: for each track, in
order, exactly `sectorCount * Blocksize` bytes taken from consecutive
positions of the source file. -/
def splitSpecOutputs (base : String) (track_count bs : Nat) (src : List Nat) :
    Nat → List TrackM → List (String × List Nat)
  | _, [] => []
  | pos, t :: ts =>
    let n := (t.sectors.getD 0 * (bs : Int)).toNat
    (track_filename base t.num track_count, (src.drop pos).take n) ::
      splitSpecOutputs base track_count bs src (pos + n) ts

/-- Total number of bytes the split engine will copy. -/
def splitTotalBytes (bs : Nat) (tracks : List TrackM) : Nat :=
  (tracks.map (fun t => (t.sectors.getD 0 * (bs : Int)).toNat)).sum

/-! ### Merge engine -/

/-- Failure modes of `merge_files`: the typed `ErrorException` for an
existing destination (line 221), and the fuel marker. -/
inductive MergeErr
  | targetExists (path : String)
  | nonterm
deriving DecidableEq

/-- The inner `while True` read loop of `merge_files` (lines 228-232):
read 1 MiB chunks until `read` returns empty. -/
def mergeCopyOne (src : List Nat) : Nat → Nat → List Nat → Option (List Nat)
  | 0, _, _ => none
  | fuel + 1, pos, out =>
    let chunk := (src.drop pos).take 1048576
    if chunk.isEmpty then some out
    else mergeCopyOne src fuel (pos + chunk.length) (out ++ chunk)

/-- The outer file loop of `merge_files` (lines 226-232). -/
def mergeLoop (content : String → List Nat) : List FileM → List Nat → Option (List Nat)
  | [], out => some out
  | f :: fs, out =>
    match mergeCopyOne (content f.filename) ((content f.filename).length + 1) 0 out with
    | none => none
    | some out2 => mergeLoop content fs out2

/-- `merge_files` (lines 219-233): the existence check runs before the
output file is created; an error result means no byte was written. -/
def merge_files (fsEx : String → Bool) (merged_filename : String) (files : List FileM)
    (content : String → List Nat) : Except MergeErr (List Nat) :=
  if fsEx merged_filename then .error (.targetExists merged_filename)
  else
    match mergeLoop content files [] with
    | none => .error .nonterm
    | some out => .ok out

/-! ### Claim-side helper definitions -/

/-- First index's sector offset of a track (`t.indexes[0]["file_offset"]`,
defaulting to 0 for the total function; every use carries a
non-emptiness hypothesis). -/
def firstOff (t : TrackM) : Nat :=
  match t.indexes.head? with
  | some i => i.file_offset
  | none => 0

/-- Set a track's `sectors` from its end boundary, as the spec's reverse
walk describes: `sectorCount = nextTrackStartOffset - firstIndex.sectorOffset`. -/
def setTrackSectors (t : TrackM) (bound : Nat) : TrackM :=
  { t with sectors := some ((bound : Int) - (firstOff t : Int)) }

/-- Modelled from the spec (§4.2 post-pass): the end boundary of each
track is the next track's first-index offset, and the last track's end
boundary is `size / Blocksize`. -/
def specSectorBounds (next : Nat) (tracks : List TrackM) : List Nat :=
  (tracks.drop 1).map firstOff ++ [next]

/-- The offset threaded out of the reverse walk after processing a
(reversed) block of tracks: the first-index offset of the block's last
track, or the incoming offset for an empty block. -/
def lastFirstOff (next : Nat) : List TrackM → Nat
  | [] => next
  | t :: ts => lastFirstOff (firstOff t) ts

/-- The type tag of the first TRACK line that actually constructs a
`Track`, i.e. the first TRACK line preceded by some FILE line
(`if m and this_file`, line 124). -/
def firstRecTrackType (fileSeen : Bool) : List CueLine → Option String
  | [] => none
  | CueLine.file _ :: rest => firstRecTrackType true rest
  | CueLine.track _ ttype :: rest =>
    if fileSeen then some ttype else firstRecTrackType fileSeen rest
  | _ :: rest => firstRecTrackType fileSeen rest

/-! ### Lemmas about decimal digits -/

theorem natDigits_ne_nil (n : Nat) : natDigits n ≠ [] := by
  unfold natDigits
  split <;> simp

theorem ofNat_digit_isDigit : ∀ n, n < 10 → (Char.ofNat (48 + n)).isDigit = true := by
  decide

theorem natDigits_digits (n : Nat) : ∀ c ∈ natDigits n, c.isDigit = true := by
  induction n using Nat.strong_induction_on with
  | _ n ih =>
    unfold natDigits
    split
    · next h =>
      intro c hc
      simp at hc
      subst hc
      exact ofNat_digit_isDigit n h
    · next h =>
      intro c hc
      simp at hc
      rcases hc with hc | hc
      · exact ih (n / 10) (Nat.div_lt_self (by omega) (by omega)) c hc
      · subst hc
        exact ofNat_digit_isDigit (n % 10) (Nat.mod_lt _ (by omega))

theorem charsToNat_append_singleton (xs : List Char) (c : Char) :
    charsToNat (xs ++ [c]) = charsToNat xs * 10 + charVal c := by
  simp [charsToNat, List.foldl_append]

theorem charVal_ofNat (n : Nat) (h : n < 10) : charVal (Char.ofNat (48 + n)) = n := by
  revert h
  revert n
  decide

theorem charsToNat_natDigits (n : Nat) : charsToNat (natDigits n) = n := by
  induction n using Nat.strong_induction_on with
  | _ n ih =>
    unfold natDigits
    split
    · next h =>
      simp [charsToNat, charVal_ofNat n h]
    · next h =>
      rw [charsToNat_append_singleton]
      rw [ih (n / 10) (Nat.div_lt_self (by omega) (by omega))]
      rw [charVal_ofNat (n % 10) (Nat.mod_lt _ (by omega))]
      omega

theorem charsToNat_replicate_zero (k : Nat) (ds : List Char) :
    charsToNat (List.replicate k '0' ++ ds) = charsToNat ds := by
  induction k with
  | zero => simp
  | succ k ih =>
    have : List.replicate (k + 1) '0' ++ ds = '0' :: (List.replicate k '0' ++ ds) := by
      simp [List.replicate_succ]
    rw [this]
    simpa [charsToNat, charVal] using ih

theorem charsToNat_pad2 (n : Nat) : charsToNat (pad2 n) = n := by
  rw [pad2, charsToNat_replicate_zero, charsToNat_natDigits]

theorem pad2_digits (n : Nat) : ∀ c ∈ pad2 n, c.isDigit = true := by
  intro c hc
  rw [pad2] at hc
  rcases List.mem_append.mp hc with hc | hc
  · have := List.eq_of_mem_replicate hc
    subst this
    decide
  · exact natDigits_digits n c hc

theorem pad2_ne_nil (n : Nat) : pad2 n ≠ [] := by
  rw [pad2]
  intro h
  rcases List.append_eq_nil.mp h with ⟨_, h2⟩
  exact natDigits_ne_nil n h2

/-! ### Span lemmas -/

theorem takeWhile_all_append {p : Char → Bool} {ds r : List Char}
    (hds : ∀ c ∈ ds, p c = true) :
    (ds ++ r).takeWhile p = ds ++ r.takeWhile p := by
  induction ds with
  | nil => simp
  | cons d ds ih =>
    have hd : p d = true := hds d (by simp)
    simp [List.takeWhile, hd]
    exact ih (fun c hc => hds c (by simp [hc]))

theorem dropWhile_all_append {p : Char → Bool} {ds r : List Char}
    (hds : ∀ c ∈ ds, p c = true) :
    (ds ++ r).dropWhile p = r.dropWhile p := by
  induction ds with
  | nil => simp
  | cons d ds ih =>
    have hd : p d = true := hds d (by simp)
    simp [List.dropWhile, hd]
    exact ih (fun c hc => hds c (by simp [hc]))

theorem takeWhile_head_false {p : Char → Bool} {r : List Char}
    (h : ∀ c, r.head? = some c → p c = false) :
    r.takeWhile p = [] := by
  cases r with
  | nil => rfl
  | cons a as =>
    have := h a rfl
    simp [List.takeWhile, this]

theorem dropWhile_head_false {p : Char → Bool} {r : List Char}
    (h : ∀ c, r.head? = some c → p c = false) :
    r.dropWhile p = r := by
  cases r with
  | nil => rfl
  | cons a as =>
    have := h a rfl
    simp [List.dropWhile, this]

theorem spanDigits_group {g r : List Char}
    (hg : ∀ c ∈ g, c.isDigit = true)
    (hr : ∀ c, r.head? = some c → c.isDigit = false) :
    spanDigits (g ++ r) = (g, r) := by
  simp only [spanDigits]
  rw [takeWhile_all_append hg, dropWhile_all_append hg,
      takeWhile_head_false hr, dropWhile_head_false hr]
  simp

/-- In a well-formed stamp published by `sectors_to_cuestamp`, each group
is followed by a non-digit (`:`) or the end of the string. -/
theorem colon_head_not_digit (t : List Char) :
    ∀ c, (':' :: t).head? = some c → c.isDigit = false := by
  intro c hc
  simp at hc
  subst hc
  decide

theorem nil_head_not_digit :
    ∀ c : Char, ([] : List Char).head? = some c → c.isDigit = false := by
  intro c hc
  simp at hc

theorem isEmpty_false_of_ne_nil {l : List Char} (h : l ≠ []) : l.isEmpty = false := by
  cases l with
  | nil => exact absurd rfl h
  | cons a as => rfl

/-- Parsing a string that begins with three colon-separated digit groups
succeeds and returns `fields + seconds*75 + minutes*60*75`; any trailing
characters not extending the third group are ignored. -/
theorem cuestamp_groups (g1 g2 g3 rest : List Char)
    (h1 : g1 ≠ []) (h2 : g2 ≠ []) (h3 : g3 ≠ [])
    (d1 : ∀ c ∈ g1, c.isDigit = true) (d2 : ∀ c ∈ g2, c.isDigit = true)
    (d3 : ∀ c ∈ g3, c.isDigit = true)
    (hr : ∀ c, rest.head? = some c → c.isDigit = false) :
    cuestamp_to_sectors (String.mk (g1 ++ ':' :: (g2 ++ ':' :: (g3 ++ rest)))) =
      some (charsToNat g3 + charsToNat g2 * 75 + charsToNat g1 * 60 * 75) := by
  have e1 : spanDigits (g1 ++ ':' :: (g2 ++ ':' :: (g3 ++ rest)))
      = (g1, ':' :: (g2 ++ ':' :: (g3 ++ rest))) :=
    spanDigits_group d1 (colon_head_not_digit _)
  have e2 : spanDigits (g2 ++ ':' :: (g3 ++ rest)) = (g2, ':' :: (g3 ++ rest)) :=
    spanDigits_group d2 (colon_head_not_digit _)
  have e3 : spanDigits (g3 ++ rest) = (g3, rest) := spanDigits_group d3 hr
  simp only [cuestamp_to_sectors, e1, e2, e3,
    isEmpty_false_of_ne_nil h1, isEmpty_false_of_ne_nil h2, isEmpty_false_of_ne_nil h3,
    Bool.false_eq_true, if_false]

/-- C1. For every integer `x` with `0 ≤ x < 100*60*75`, converting `x` to
a timestamp and back is the identity:
`cuestamp_to_sectors (sectors_to_cuestamp x) = some x`. -/
theorem c1_cuestamp_roundtrip (x : Nat) (hx : x < 100 * 60 * 75) :
    cuestamp_to_sectors (sectors_to_cuestamp x) = some x := by
  clear hx
  have hs : sectors_to_cuestamp x
      = String.mk (pad2 (x / 4500) ++ ':' :: (pad2 (x % 4500 / 75) ++ ':' :: (pad2 (x % 75) ++ []))) := by
    simp [sectors_to_cuestamp]
  rw [hs, cuestamp_groups _ _ _ _ (pad2_ne_nil _) (pad2_ne_nil _) (pad2_ne_nil _)
    (pad2_digits _) (pad2_digits _) (pad2_digits _) nil_head_not_digit]
  rw [charsToNat_pad2, charsToNat_pad2, charsToNat_pad2]
  congr 1
  have h1 := Nat.div_add_mod x 4500
  have h2 := Nat.div_add_mod (x % 4500) 75
  have h3 : x % 4500 % 75 = x % 75 := Nat.mod_mod_of_dvd x (by norm_num)
  omega

/-- Witness for C1 at `x = 12345`. -/
theorem c1_cuestamp_roundtrip_witness :
    cuestamp_to_sectors (sectors_to_cuestamp 12345) = some 12345 :=
  c1_cuestamp_roundtrip 12345 (by norm_num)

/-- C8 counterexample: the claim says `cuestamp_to_sectors` fails on any
string with trailing extra characters after a valid `MM:SS:FF` start,
but `re.match` is not anchored at the end, so `"1:2:3x"` parses
successfully to `3 + 2*75 + 1*60*75 = 4653`. -/
theorem c8_trailing_accepted : cuestamp_to_sectors "1:2:3x" = some 4653 := by
  decide

/-- C8 (amended). `cuestamp_to_sectors` succeeds, returning
`frames + seconds*75 + minutes*60*75`, exactly when the string *begins*
with three colon-separated digit groups — trailing characters that do not
extend the third group are accepted and ignored; on all other strings it
fails (in the source with an untyped `AttributeError`, not a typed
`FormatError`). -/
theorem c8_stamp_parse_characterization (s : String) (v : Nat) :
    cuestamp_to_sectors s = some v ↔
      ∃ g1 g2 g3 rest : List Char,
        s.data = g1 ++ ':' :: (g2 ++ ':' :: (g3 ++ rest)) ∧
        g1 ≠ [] ∧ g2 ≠ [] ∧ g3 ≠ [] ∧
        (∀ c ∈ g1, c.isDigit = true) ∧
        (∀ c ∈ g2, c.isDigit = true) ∧
        (∀ c ∈ g3, c.isDigit = true) ∧
        (∀ c, rest.head? = some c → c.isDigit = false) ∧
        v = charsToNat g3 + charsToNat g2 * 75 + charsToNat g1 * 60 * 75 := by
  constructor
  · intro h
    simp only [cuestamp_to_sectors, spanDigits] at h
    split at h
    · exact absurd h (by simp)
    · next hne1 =>
      split at h
      · next c2 hr1 =>
        split at h
        · exact absurd h (by simp)
        · next hne2 =>
          split at h
          · next c3 hr2 =>
            split at h
            · exact absurd h (by simp)
            · next hne3 =>
              refine ⟨s.data.takeWhile Char.isDigit, c2.takeWhile Char.isDigit,
                c3.takeWhile Char.isDigit, c3.dropWhile Char.isDigit,
                ?_, ?_, ?_, ?_, ?_, ?_, ?_, ?_, ?_⟩
              · rw [List.takeWhile_append_dropWhile, ← hr2,
                  List.takeWhile_append_dropWhile, ← hr1,
                  List.takeWhile_append_dropWhile]
              · simpa using hne1
              · simpa using hne2
              · simpa using hne3
              · intro c hc
                exact List.mem_takeWhile_imp hc
              · intro c hc
                exact List.mem_takeWhile_imp hc
              · intro c hc
                exact List.mem_takeWhile_imp hc
              · intro c hc
                have hd := List.head?_dropWhile_not Char.isDigit c3
                rw [hc] at hd
                exact hd
              · simp only [Option.some.injEq] at h
                omega
          · exact absurd h (by simp)
      · exact absurd h (by simp)
  · rintro ⟨g1, g2, g3, rest, hdec, h1, h2, h3, d1, d2, d3, hr, hv⟩
    obtain ⟨data⟩ := s
    simp only at hdec
    subst hdec hv
    exact cuestamp_groups g1 g2 g3 rest h1 h2 h3 d1 d2 d3 hr

/-- Witness for C8's amended characterization at `"10:20:30"`. -/
theorem c8_stamp_parse_witness : cuestamp_to_sectors "10:20:30" = some 46530 :=
  (c8_stamp_parse_characterization "10:20:30" 46530).mpr
    ⟨['1', '0'], ['2', '0'], ['3', '0'], [], by decide, by decide, by decide, by decide,
      by decide, by decide, by decide, fun c hc => by simp at hc, by decide⟩

/-! ### Merge / split target-exists guards (C5, C6) -/

/-- C5. Whenever the output path already exists, `merge_files` fails
with the target-exists `ErrorException` before the output file is
created; the error result carries no written bytes. -/
theorem c5_merge_target_exists (fsEx : String → Bool) (merged_filename : String)
    (files : List FileM) (content : String → List Nat)
    (h : fsEx merged_filename = true) :
    merge_files fsEx merged_filename files content =
      .error (.targetExists merged_filename) := by
  simp [merge_files, h]

/-- Witness for C5 on a concrete existing destination. -/
theorem c5_merge_target_exists_witness :
    merge_files (fun _ => true) "out.bin" [] (fun _ => []) =
      .error (.targetExists "out.bin") :=
  c5_merge_target_exists (fun _ => true) "out.bin" [] (fun _ => []) rfl

theorem findExistingTarget_some {fsEx : String → Bool} {base : String} {track_count : Nat} :
    ∀ ts : List TrackM,
      (∃ t ∈ ts, fsEx (track_filename base t.num track_count) = true) →
      ∃ nm, findExistingTarget fsEx base track_count ts = some nm ∧ fsEx nm = true := by
  intro ts
  induction ts with
  | nil => rintro ⟨t, ht, _⟩; simp at ht
  | cons t ts ih =>
    rintro ⟨u, hu, hex⟩
    by_cases h : fsEx (track_filename base t.num track_count) = true
    · exact ⟨track_filename base t.num track_count, by simp [findExistingTarget, h], h⟩
    · rcases List.mem_cons.mp hu with rfl | hu
      · exact absurd hex h
      · rcases ih ⟨u, hu, hex⟩ with ⟨nm, hnm, hex2⟩
        refine ⟨nm, ?_, hex2⟩
        simp [findExistingTarget, h, hnm]

/-- C6. If any one of the computed per-track target filenames already
exists, `split_files` fails with the target-exists `ErrorException`
during the preflight loop, before any track output is produced (the
error result carries no outputs at all). -/
theorem c6_split_target_exists (fsEx : String → Bool) (new_basename : String)
    (merged_file : FileM) (src : List Nat) (gbs : Option Nat)
    (h : ∃ t ∈ merged_file.tracks,
      fsEx (track_filename new_basename t.num merged_file.tracks.length) = true) :
    ∃ nm, split_files fsEx new_basename merged_file src gbs =
        .error (.targetExists nm) ∧ fsEx nm = true := by
  rcases findExistingTarget_some merged_file.tracks h with ⟨nm, hnm, hex⟩
  exact ⟨nm, by simp [split_files, hnm], hex⟩

/-- Witness for C6: every target exists, so the preflight must fail. -/
theorem c6_split_target_exists_witness :
    ∃ nm, split_files (fun _ => true) "g"
        ⟨"m.bin", 6, [⟨1, "AUDIO", [⟨1, 0⟩], some 2⟩, ⟨2, "AUDIO", [⟨1, 2⟩], some 1⟩]⟩
        [0, 1, 2, 3, 4, 5] (some 2) =
        .error (.targetExists nm) ∧ (fun _ => (true : Bool)) nm = true :=
  c6_split_target_exists (fun _ => true) "g"
    ⟨"m.bin", 6, [⟨1, "AUDIO", [⟨1, 0⟩], some 2⟩, ⟨2, "AUDIO", [⟨1, 2⟩], some 1⟩]⟩
    [0, 1, 2, 3, 4, 5] (some 2)
    ⟨⟨2, "AUDIO", [⟨1, 2⟩], some 1⟩, by simp, rfl⟩

/-! ### C7: missing/unreadable binary check -/

/-- C7 (code bug evidence).  The source guard is
`not (os.path.isfile(p) or os.access(p, os.R_OK))`, which fails only
when the path is *neither* a file *nor* readable.  For an existing but
unreadable binary (`isfile = true`, `readable = false`) the parse
therefore **succeeds**, although both the claim and the source's own
error message ("Bin file not found or not readable") say it must fail. -/
theorem c7_unreadable_bin_is_accepted :
    read_cue_file ⟨fun _ => true, fun _ => false, fun _ => 4704⟩ none
        [.file "locked.bin", .track 1 "AUDIO", .index 1 0 0 0] =
      .ok ([⟨"locked.bin", 4704, [⟨1, "AUDIO", [⟨1, 0⟩], some 2⟩]⟩], some 2352) := by
  rfl

/-! ### Blocksize locking (C9, C10) -/

theorem blocksizeFor_ne_zero {track_type : String} {b : Nat}
    (h : blocksizeFor track_type = some b) : b ≠ 0 := by
  unfold blocksizeFor at h
  split_ifs at h
  all_goals first
    | exact Option.noConfusion h
    | (injection h with h2; omega)

theorem listModify_isEmpty (f : α → α) (n : Nat) (l : List α) :
    (listModify f n l).isEmpty = l.isEmpty := by
  cases l <;> cases n <;> rfl

/-- Once the blocksize is locked to a non-zero value, no later line of
the parse changes it. -/
theorem parseLines_gbs_preserved {fs : FS} {b : Nat} :
    ∀ (lines : List CueLine) (st st2 : PState),
      st.gbs = some b → b ≠ 0 → parseLines fs st lines = .ok st2 → st2.gbs = some b := by
  intro lines
  induction lines with
  | nil =>
    intro st st2 hg _ hok
    simp only [parseLines] at hok
    cases hok
    exact hg
  | cons line rest ih =>
    intro st st2 hg hb hok
    cases line with
    | file p =>
      simp only [parseLines] at hok
      split at hok
      · cases hok
      · refine ih _ _ ?_ hb hok
        exact hg
    | track num ttype =>
      simp only [parseLines] at hok
      split at hok
      · exact ih _ _ hg hb hok
      · have hl : lockBlocksize st.gbs ttype = (st.gbs, false) := by
          simp [lockBlocksize, hg, hb]
        rw [hl] at hok
        refine ih _ _ ?_ hb hok
        exact hg
    | index i m s f =>
      simp only [parseLines] at hok
      split at hok
      · exact ih _ _ hg hb hok
      · refine ih _ _ ?_ hb hok
        exact hg
    | other =>
      simp only [parseLines] at hok
      exact ih _ _ hg hb hok

/-- While the blocksize is unset, the first TRACK line constructed locks
it via the table, and it survives to the end of the parse. -/
theorem parseLines_locks_first {fs : FS} {τ : String} {b : Nat} :
    ∀ (lines : List CueLine) (st st2 : PState),
      st.gbs = none →
      firstRecTrackType (!st.files.isEmpty) lines = some τ →
      blocksizeFor τ = some b →
      parseLines fs st lines = .ok st2 → st2.gbs = some b := by
  intro lines
  induction lines with
  | nil =>
    intro st st2 _ hτ _ _
    simp [firstRecTrackType] at hτ
  | cons line rest ih =>
    intro st st2 hg hτ hb hok
    cases line with
    | file p =>
      simp only [firstRecTrackType] at hτ
      simp only [parseLines] at hok
      split at hok
      · cases hok
      · refine ih _ _ ?_ ?_ hb hok
        · exact hg
        · have hne : (st.files ++ [(⟨p, fs.size p, []⟩ : FileM)]).isEmpty = false := by
            cases st.files <;> simp
          simpa [hne] using hτ
    | track num ttype =>
      simp only [parseLines] at hok
      split at hok
      · next hemp =>
        refine ih _ _ hg ?_ hb hok
        simpa [firstRecTrackType, hemp] using hτ
      · next hemp =>
        have hflag : st.files.isEmpty = false := by
          simpa using hemp
        simp only [firstRecTrackType, hflag, Bool.not_false, if_true] at hτ
        rw [Option.some_inj] at hτ
        subst hτ
        have hl : lockBlocksize st.gbs ttype = (some b, false) := by
          simp [lockBlocksize, hg, hb]
        rw [hl] at hok
        exact parseLines_gbs_preserved rest _ _ rfl (blocksizeFor_ne_zero hb) hok
    | index i m s f =>
      simp only [firstRecTrackType] at hτ
      simp only [parseLines] at hok
      split at hok
      · exact ih _ _ hg hτ hb hok
      · refine ih _ _ ?_ ?_ hb hok
        · exact hg
        · simpa [appendIndexAt, listModify_isEmpty] using hτ
    | other =>
      simp only [firstRecTrackType] at hτ
      simp only [parseLines] at hok
      exact ih _ _ hg hτ hb hok

/-- C9 counterexample.  The textually first TRACK line of this cuesheet
carries `AUDIO` (table value 2352), but it precedes any FILE line, so
`read_cue_file` ignores it (`if m and this_file`) and locks the
blocksize from the *later* `MODE1/2048` TRACK line instead: the parse
succeeds with blocksize 2048, not 2352. -/
theorem c9_first_track_line_counterexample :
    read_cue_file ⟨fun _ => true, fun _ => true, fun _ => 20480⟩ none
        [.track 1 "AUDIO", .file "a.bin", .track 2 "MODE1/2048", .index 1 0 0 0] =
      .ok ([⟨"a.bin", 20480, [⟨2, "MODE1/2048", [⟨1, 0⟩], some 10⟩]⟩], some 2048) ∧
    blocksizeFor "AUDIO" = some 2352 ∧ (2048 : Nat) ≠ 2352 := by
  refine ⟨rfl, rfl, by omega⟩

/-- C9 (amended).  In a parse starting with no blocksize set, the
blocksize that the whole parse ends up using (and that the back-fill
arithmetic used) is the table value of the type tag of the first TRACK
line *recognized while a SourceFile is open* — TRACK lines before any
FILE line are ignored — and later TRACK lines with different tags never
change it. -/
theorem c9_blocksize_locked_from_first_recognized (fs : FS) (lines : List CueLine)
    (τ : String) (b : Nat) (res : List FileM) (g : Option Nat)
    (hτ : firstRecTrackType false lines = some τ)
    (hb : blocksizeFor τ = some b)
    (hok : read_cue_file fs none lines = .ok (res, g)) :
    g = some b := by
  unfold read_cue_file at hok
  cases hpl : parseLines fs ⟨[], none, none⟩ lines with
  | error e =>
    rw [hpl] at hok
    cases hok
  | ok st =>
    rw [hpl] at hok
    dsimp only at hok
    have hgbs : st.gbs = some b :=
      parseLines_locks_first lines ⟨[], none, none⟩ st rfl hτ hb hpl
    split at hok
    · rw [hgbs] at hok
      dsimp only at hok
      split at hok
      · cases hok
      · have := Except.ok.inj hok
        rw [Prod.ext_iff] at this
        exact this.2.symm
    · have := Except.ok.inj hok
      rw [Prod.ext_iff] at this
      rw [hgbs] at this
      exact this.2.symm

/-- Witness for C9's amended statement on a concrete parse whose first
recognized TRACK is `MODE1/2048`. -/
theorem c9_blocksize_locked_witness : (some 2048 : Option Nat) = some 2048 :=
  c9_blocksize_locked_from_first_recognized
    ⟨fun _ => true, fun _ => true, fun _ => 20480⟩
    [.file "a.bin", .track 1 "MODE1/2048", .index 1 0 0 0]
    "MODE1/2048" 2048
    [⟨"a.bin", 20480, [⟨1, "MODE1/2048", [⟨1, 0⟩], some 10⟩]⟩] (some 2048)
    rfl rfl rfl

/-- While the blocksize is unset, a parse whose first constructed Track
has a type tag outside the table dies with the untyped
`"%d" % None` `TypeError`, provided every FILE line passes the
existence check (so that nothing errors earlier). -/
theorem parseLines_unknown_first_errors {fs : FS} {τ : String} :
    ∀ (lines : List CueLine) (st : PState),
      st.gbs = none →
      firstRecTrackType (!st.files.isEmpty) lines = some τ →
      blocksizeFor τ = none →
      (∀ p, CueLine.file p ∈ lines → (fs.isfile p || fs.readable p) = true) →
      parseLines fs st lines = .error .noneFormatError := by
  intro lines
  induction lines with
  | nil =>
    intro st _ hτ _ _
    simp [firstRecTrackType] at hτ
  | cons line rest ih =>
    intro st hg hτ hb hfiles
    cases line with
    | file p =>
      have hfp : (fs.isfile p || fs.readable p) = true :=
        hfiles p (by simp)
      simp only [parseLines, hfp, Bool.not_true, Bool.false_eq_true, if_false]
      refine ih _ ?_ ?_ hb ?_
      · exact hg
      · have hne : (st.files ++ [(⟨p, fs.size p, []⟩ : FileM)]).isEmpty = false := by
          cases st.files <;> simp
        simpa [firstRecTrackType, hne] using hτ
      · intro q hq
        exact hfiles q (by simp [hq])
    | track num ttype =>
      by_cases hemp : st.files.isEmpty = true
      · simp only [parseLines, hemp, if_true]
        refine ih _ hg ?_ hb ?_
        · simpa [firstRecTrackType, hemp] using hτ
        · intro q hq
          exact hfiles q (by simp [hq])
      · have hflag : st.files.isEmpty = false := by
          simpa using hemp
        simp only [firstRecTrackType, hflag, Bool.not_false, if_true] at hτ
        rw [Option.some_inj] at hτ
        subst hτ
        have hl : lockBlocksize st.gbs ttype = (st.gbs, true) := by
          simp [lockBlocksize, hg, hb]
        simp only [parseLines, hflag, Bool.false_eq_true, if_false, hl]
    | index i m s f =>
      simp only [parseLines]
      split
      · refine ih _ hg ?_ hb ?_
        · simpa [firstRecTrackType] using hτ
        · intro q hq
          exact hfiles q (by simp [hq])
      · refine ih _ ?_ ?_ hb ?_
        · exact hg
        · simpa [firstRecTrackType, appendIndexAt, listModify_isEmpty] using hτ
        · intro q hq
          exact hfiles q (by simp [hq])
    | other =>
      simp only [parseLines]
      refine ih _ hg ?_ hb ?_
      · simpa [firstRecTrackType] using hτ
      · intro q hq
        exact hfiles q (by simp [hq])

/-- C10.  If the first TRACK line that constructs a `Track` carries a
type tag outside the eight known types, the blocksize stays unset
(`lockBlocksize` returns `none` with the raise flag) and the parse
aborts with the *untyped* `TypeError` from formatting `None` in the
debug log — not one of the typed error values — so no `DiscImage` with
an unset blocksize is ever produced by it. -/
theorem c10_unknown_first_type_untyped_error (fs : FS) (lines : List CueLine) (τ : String)
    (hτ : firstRecTrackType false lines = some τ)
    (hb : blocksizeFor τ = none)
    (hfiles : ∀ p, CueLine.file p ∈ lines → (fs.isfile p || fs.readable p) = true) :
    read_cue_file fs none lines = .error .noneFormatError ∧
      lockBlocksize none τ = (none, true) := by
  constructor
  · unfold read_cue_file
    rw [parseLines_unknown_first_errors lines ⟨[], none, none⟩ rfl hτ hb hfiles]
  · simp [lockBlocksize, hb]

/-- Witness for C10 with the typo tag `MODE1/2324`. -/
theorem c10_unknown_first_type_witness :
    read_cue_file ⟨fun _ => true, fun _ => true, fun _ => 0⟩ none
        [.file "a.bin", .track 1 "MODE1/2324"] =
      .error .noneFormatError ∧
      lockBlocksize none "MODE1/2324" = (none, true) :=
  c10_unknown_first_type_untyped_error
    ⟨fun _ => true, fun _ => true, fun _ => 0⟩
    [.file "a.bin", .track 1 "MODE1/2324"] "MODE1/2324"
    rfl rfl
    (by
      intro p hp
      simp at hp
      subst hp
      rfl)

/-! ### Sector-count back-fill (C3) -/

theorem lastFirstOff_cons {x : TrackM} {i0 : IndexM} (hx : x.indexes.head? = some i0)
    (next : Nat) (xs : List TrackM) :
    lastFirstOff next (x :: xs) = lastFirstOff i0.file_offset xs := by
  simp [lastFirstOff, firstOff, hx]

theorem lastFirstOff_append_singleton (next : Nat) (l : List TrackM) (e : TrackM) :
    lastFirstOff next (l ++ [e]) = firstOff e := by
  induction l generalizing next with
  | nil => rfl
  | cons a as ih => simpa [lastFirstOff] using ih (firstOff a)

theorem backfillLoop_append (xs ys : List TrackM) (next : Nat) :
    backfillLoop next (xs ++ ys) =
      (backfillLoop next xs).bind (fun xs2 =>
        (backfillLoop (lastFirstOff next xs) ys).map (fun ys2 => xs2 ++ ys2)) := by
  induction xs generalizing next with
  | nil =>
    cases h : backfillLoop next ys <;>
      simp [backfillLoop, lastFirstOff, h]
  | cons x xs ih =>
    cases hx : x.indexes.head? with
    | none => simp [backfillLoop, hx]
    | some i0 =>
      simp only [List.cons_append, backfillLoop, hx, List.append_eq]
      rw [ih, lastFirstOff_cons hx]
      cases backfillLoop i0.file_offset xs <;>
        cases backfillLoop (lastFirstOff i0.file_offset xs) ys <;> simp

theorem backfillTracks_eq_spec :
    ∀ (tracks : List TrackM) (next : Nat),
      (∀ t ∈ tracks, t.indexes ≠ []) →
      backfillTracks next tracks =
        some (List.zipWith setTrackSectors tracks (specSectorBounds next tracks)) := by
  intro tracks
  induction tracks with
  | nil => intro next _; rfl
  | cons t ts ih =>
    intro next hne
    have hts : ∀ u ∈ ts, u.indexes ≠ [] := fun u hu => hne u (by simp [hu])
    have ht : t.indexes ≠ [] := hne t (by simp)
    obtain ⟨i0, hi0⟩ : ∃ i0, t.indexes.head? = some i0 := by
      cases hidx : t.indexes with
      | nil => exact absurd hidx ht
      | cons a as => exact ⟨a, rfl⟩
    have hloop : backfillLoop next ts.reverse =
        some ((List.zipWith setTrackSectors ts (specSectorBounds next ts)).reverse) := by
      have h2 := ih next hts
      unfold backfillTracks at h2
      cases hb : backfillLoop next ts.reverse with
      | none => rw [hb] at h2; cases h2
      | some v =>
        rw [hb] at h2
        have h3 : v.reverse = List.zipWith setTrackSectors ts (specSectorBounds next ts) :=
          Option.some_inj.mp h2
        rw [← h3, List.reverse_reverse]
    have hsingle : ∀ nx, backfillLoop nx [t] = some [setTrackSectors t nx] := by
      intro nx
      simp [backfillLoop, hi0, setTrackSectors, firstOff]
    unfold backfillTracks
    rw [List.reverse_cons, backfillLoop_append, hloop, hsingle]
    simp only [Option.bind_some, Option.map_some, Option.bind, Option.map,
      List.reverse_append, List.reverse_reverse, List.reverse_cons, List.reverse_nil,
      List.nil_append, List.singleton_append, Option.some_inj]
    cases ts with
    | nil =>
      simp [specSectorBounds, lastFirstOff]
    | cons u ts2 =>
      have hNX : lastFirstOff next ((u :: ts2).reverse) = firstOff u := by
        rw [List.reverse_cons, lastFirstOff_append_singleton]
      rw [hNX]
      simp [specSectorBounds]

/-- C3.  General: whenever every track has at least one index, the
reverse-walk back-fill sets each track's `sectors` to its end boundary
minus its own first-index offset, where the boundaries are the later
tracks' first-index offsets followed by `size / Blocksize` for the last
track.  Particular: one FILE, two tracks with INDEX 01 offsets 0 and
12000 (`02:40:00`), binary of `Blocksize * 15000` bytes — track 1 gets
12000 sectors and track 2 gets 3000. -/
theorem c3_sector_backfill :
    (∀ (next : Nat) (tracks : List TrackM),
      (∀ t ∈ tracks, t.indexes ≠ []) →
      backfillTracks next tracks =
        some (List.zipWith setTrackSectors tracks (specSectorBounds next tracks))) ∧
    read_cue_file ⟨fun _ => true, fun _ => true, fun _ => 2352 * 15000⟩ none
        [.file "game.bin", .track 1 "AUDIO", .index 1 0 0 0,
         .track 2 "AUDIO", .index 1 2 40 0] =
      .ok ([⟨"game.bin", 2352 * 15000,
        [⟨1, "AUDIO", [⟨1, 0⟩], some 12000⟩,
         ⟨2, "AUDIO", [⟨1, 12000⟩], some 3000⟩]⟩], some 2352) :=
  ⟨fun next tracks h => backfillTracks_eq_spec tracks next h, by rfl⟩

/-- Witness applying C3's universally quantified part to one concrete
track list. -/
theorem c3_sector_backfill_witness :
    backfillTracks 10 [⟨1, "AUDIO", [⟨1, 2⟩], none⟩] =
      some (List.zipWith setTrackSectors [⟨1, "AUDIO", [⟨1, 2⟩], none⟩]
        (specSectorBounds 10 [⟨1, "AUDIO", [⟨1, 2⟩], none⟩])) :=
  c3_sector_backfill.1 10 [⟨1, "AUDIO", [⟨1, 2⟩], none⟩] (by decide)

/-! ### Split copy engine (C2) -/

theorem take_drop_length {src : List Nat} {pos n : Nat} (h : pos + n ≤ src.length) :
    ((src.drop pos).take n).length = n := by
  simp only [List.length_take, List.length_drop]
  omega

/-- The split copy loop writes exactly the next `Δ` bytes of the source
when the source is long enough, the chunk size is positive, and the
remaining byte budget is `Δ`. -/
theorem copyLoop_spec (src : List Nat) :
    ∀ (fuel Δ : Nat) (pos : Nat) (chunksize written : Int) (out : List Nat),
      1 ≤ chunksize → pos + Δ ≤ src.length → Δ < fuel →
      copyLoop src fuel pos chunksize written (written + Δ) out =
        some (out ++ (src.drop pos).take Δ, pos + Δ) := by
  intro fuel
  induction fuel with
  | zero =>
    intro Δ pos chunksize written out _ _ h3
    exact absurd h3 (Nat.not_lt_zero Δ)
  | succ fuel ih =>
    intro Δ pos chunksize written out hc hlen _
    simp only [copyLoop]
    split_ifs with h1 h2 h2
    · -- overshoot: the chunk is shortened to Δ and the loop breaks
      have hcΔ : written + (Δ : Int) - written = (Δ : Int) := by ring
      rw [hcΔ]
      have hnn : ¬((Δ : Int) < 0) := by omega
      simp only [pyRead, hnn, if_false, Int.toNat_natCast]
      rw [take_drop_length hlen]
    · exact absurd (by ring) h2
    · -- exact fit: chunksize = Δ
      have hcd : chunksize = (Δ : Int) := by omega
      subst hcd
      have hnn : ¬(((Δ : Nat) : Int) < 0) := by omega
      simp only [pyRead, hnn, if_false, Int.toNat_natCast]
      rw [take_drop_length hlen]
    · -- short chunk: recurse on the remaining Δ - chunksize bytes
      have hle : chunksize ≤ (Δ : Int) := by omega
      have hnn : ¬(chunksize < 0) := by omega
      set cn := chunksize.toNat with hcn
      have hcast : (cn : Int) = chunksize := Int.toNat_of_nonneg (by omega)
      have hcnΔ : cn < Δ := by omega
      simp only [pyRead, hnn, if_false]
      have hlen2 : ((src.drop pos).take cn).length = cn :=
        take_drop_length (by omega)
      rw [hlen2]
      have hsplit : written + (Δ : Int) = written + chunksize + ((Δ - cn : Nat) : Int) := by
        omega
      rw [hsplit]
      rw [ih (Δ - cn) (pos + cn) chunksize (written + chunksize) (out ++ (src.drop pos).take cn)
        hc (by omega) (by omega)]
      rw [List.append_assoc]
      have hjoin : (src.drop pos).take cn ++ (src.drop (pos + cn)).take (Δ - cn) =
          (src.drop pos).take Δ := by
        have hΔ : Δ = cn + (Δ - cn) := by omega
        rw [hΔ, List.take_add, List.drop_drop]
        simp
      rw [hjoin]
      have hpos : pos + cn + (Δ - cn) = pos + Δ := by omega
      rw [hpos]

theorem findExistingTarget_none {fsEx : String → Bool} {base : String} {track_count : Nat} :
    ∀ ts : List TrackM,
      (∀ t ∈ ts, fsEx (track_filename base t.num track_count) = false) →
      findExistingTarget fsEx base track_count ts = none := by
  intro ts
  induction ts with
  | nil => intro _; rfl
  | cons t ts ih =>
    intro h
    have ht := h t (by simp)
    simp only [findExistingTarget, ht, Bool.false_eq_true, if_false]
    exact ih (fun u hu => h u (by simp [hu]))

/-- The write loop produces, for each track in order, exactly
`sectors * blocksize` bytes taken from consecutive positions of the
source. -/
theorem writeTracks_spec {base : String} {track_count bs : Nat} {src : List Nat} :
    ∀ (tracks : List TrackM) (pos : Nat),
      (∀ t ∈ tracks, t.sectors.isSome = true) →
      (∀ t ∈ tracks, 0 ≤ t.sectors.getD 0) →
      pos + splitTotalBytes bs tracks ≤ src.length →
      writeTracks base track_count (some bs) src pos tracks =
        .ok (splitSpecOutputs base track_count bs src pos tracks) := by
  intro tracks
  induction tracks with
  | nil => intro pos _ _ _; rfl
  | cons t ts ih =>
    intro pos hsome hnn hlen
    obtain ⟨s, hs⟩ : ∃ s, t.sectors = some s :=
      Option.isSome_iff_exists.mp (hsome t (by simp))
    have hs0 : 0 ≤ s := by
      have := hnn t (by simp)
      rw [hs] at this
      exact this
    have hbytes : splitTotalBytes bs (t :: ts) =
        (s * (bs : Int)).toNat + splitTotalBytes bs ts := by
      simp [splitTotalBytes, hs]
    have hnncast : ((s * (bs : Int)).toNat : Int) = s * (bs : Int) :=
      Int.toNat_of_nonneg (by positivity)
    set n := (s * (bs : Int)).toNat with hn
    have htr : s * (bs : Int) = (0 : Int) + (n : Int) := by omega
    simp only [writeTracks, hs]
    have hcopy := copyLoop_spec src (n + 1) n pos 1048576 0 []
      (by norm_num) (by omega) (by omega)
    rw [← htr] at hcopy
    rw [hcopy]
    dsimp only
    rw [ih (pos + n)
      (fun u hu => hsome u (by simp [hu]))
      (fun u hu => hnn u (by simp [hu]))
      (by omega)]
    dsimp only
    simp only [splitSpecOutputs, hs, List.nil_append, Option.getD_some, hn]

/-- C2.  For a SourceFile whose tracks all have a (non-negative)
`sectorCount`, a source long enough to hold the sum of
`sectorCount * Blocksize` bytes, and no pre-existing targets,
`split_files` succeeds and writes, for each track in order, exactly
`sectorCount * Blocksize` bytes taken from consecutive positions of the
source file — each track starting where the previous one ended. -/
theorem c2_split_writes_consecutive_slices (fsEx : String → Bool) (new_basename : String)
    (merged_file : FileM) (src : List Nat) (bs : Nat)
    (hfree : ∀ t ∈ merged_file.tracks,
      fsEx (track_filename new_basename t.num merged_file.tracks.length) = false)
    (hsome : ∀ t ∈ merged_file.tracks, t.sectors.isSome = true)
    (hnn : ∀ t ∈ merged_file.tracks, 0 ≤ t.sectors.getD 0)
    (hlen : splitTotalBytes bs merged_file.tracks ≤ src.length) :
    split_files fsEx new_basename merged_file src (some bs) =
      .ok (splitSpecOutputs new_basename merged_file.tracks.length bs src 0
        merged_file.tracks) := by
  simp only [split_files, findExistingTarget_none merged_file.tracks hfree]
  exact writeTracks_spec merged_file.tracks 0 hsome hnn (by omega)

/-- Witness for C2: two tracks of 2 and 1 sectors, blocksize 2, over a
6-byte source. -/
theorem c2_split_writes_witness :
    split_files (fun _ => false) "g"
        ⟨"m.bin", 6, [⟨1, "AUDIO", [⟨1, 0⟩], some 2⟩, ⟨2, "AUDIO", [⟨1, 2⟩], some 1⟩]⟩
        [10, 20, 30, 40, 50, 60] (some 2) =
      .ok (splitSpecOutputs "g" 2 2 [10, 20, 30, 40, 50, 60] 0
        [⟨1, "AUDIO", [⟨1, 0⟩], some 2⟩, ⟨2, "AUDIO", [⟨1, 2⟩], some 1⟩]) :=
  c2_split_writes_consecutive_slices (fun _ => false) "g"
    ⟨"m.bin", 6, [⟨1, "AUDIO", [⟨1, 0⟩], some 2⟩, ⟨2, "AUDIO", [⟨1, 2⟩], some 1⟩]⟩
    [10, 20, 30, 40, 50, 60] 2
    (fun t _ => rfl) (by decide) (by decide) (by decide)

/-! ### Merged cuesheet generator (C4) -/

theorem offsetsFrom_add (a : Nat) :
    ∀ (l : List Nat) (b : Nat),
      offsetsFrom (a + b) l = (offsetsFrom b l).map (fun x => x + a) := by
  intro l
  induction l with
  | nil => intro b; rfl
  | cons n ns ih =>
    intro b
    simp only [offsetsFrom, List.map_cons]
    rw [show a + b + n = a + (b + n) from by omega, ih (b + n)]
    congr 1
    omega

/-- The accumulator loop of `gen_merged_cuesheet` emits, for the `j`-th
file, index stamps offset by the sum of `size / bs` over the files
before it. -/
theorem genMergedLoop_spec (bs : Nat) :
    ∀ (files : List FileM) (pos : Nat),
      genMergedLoop (some bs) pos files =
        some (strConcat
          (List.zipWith (fun f base => strConcat (f.tracks.map (trackIndexLines base)))
            files (offsetsFrom pos (files.map (fun f => f.size / bs))))) := by
  intro files
  induction files with
  | nil => intro pos; rfl
  | cons f fs ih =>
    intro pos
    simp only [genMergedLoop, List.map_cons, offsetsFrom, List.zipWith_cons_cons]
    rw [ih (pos + f.size / bs)]
    rfl

/-- C4.  General: whenever the blocksize divides every file size, the
merged cuesheet is the `FILE` header followed by each file's
`TRACK`/`INDEX` lines stamped at `runningSectorOffset + sectorOffset`,
with `runningSectorOffset` the running sums of `size / Blocksize`
(`mergedBodySpec`).  Particular: with two source files of sizes
`1000 * Blocksize` and `500 * Blocksize`, the second file's indexes are
offset by exactly 1000 sectors. -/
theorem c4_merged_running_offsets (basename : String) (files : List FileM)
    (bs : Nat) (f1 f2 : FileM)
    (hbs : 0 < bs)
    (hdvd : ∀ f ∈ files, bs ∣ f.size)
    (h1 : f1.size = 1000 * bs) (h2 : f2.size = 500 * bs) :
    gen_merged_cuesheet basename files (some bs) =
      some ("FILE \"" ++ basename ++ ".bin\" BINARY\n" ++ mergedBodySpec bs files) ∧
    gen_merged_cuesheet basename [f1, f2] (some bs) =
      some ("FILE \"" ++ basename ++ ".bin\" BINARY\n" ++
        strConcat (f1.tracks.map (trackIndexLines 0)) ++
        strConcat (f2.tracks.map (trackIndexLines 1000))) := by
  constructor
  · unfold gen_merged_cuesheet mergedBodySpec
    rw [genMergedLoop_spec]
    rfl
  · unfold gen_merged_cuesheet
    rw [genMergedLoop_spec]
    have hsz : f1.size / bs = 1000 := by
      rw [h1]
      exact Nat.mul_div_cancel 1000 hbs
    simp only [List.map_cons, List.map_nil, offsetsFrom, List.zipWith_cons_cons,
      List.zipWith_nil_right, hsz, Nat.zero_add, Option.map_some]
    simp [strConcat, String.append_assoc]

/-- Witness for C4 at blocksize 2352 with concrete file sizes. -/
theorem c4_merged_running_offsets_witness :
    gen_merged_cuesheet "m" [] (some 2352) =
      some ("FILE \"" ++ "m" ++ ".bin\" BINARY\n" ++ mergedBodySpec 2352 []) ∧
    gen_merged_cuesheet "m" [⟨"a", 2352000, []⟩, ⟨"b", 1176000, []⟩] (some 2352) =
      some ("FILE \"" ++ "m" ++ ".bin\" BINARY\n" ++
        strConcat (List.map (trackIndexLines 0) []) ++
        strConcat (List.map (trackIndexLines 1000) [])) :=
  c4_merged_running_offsets "m" [] 2352 ⟨"a", 2352000, []⟩ ⟨"b", 1176000, []⟩
    (by norm_num) (by simp) (by norm_num) (by norm_num)

end Binmerge
